import Mathlib

/-!
Verification of the Pavement Condition Assessment repository.

Shallow embedding of the PCI (Pavement Condition Index) calculator:
`curves.py` (linear curve interpolation, deduct and CDV curve lookup) and
`calculator.py` (the ASTM D6433 deduct-value / corrected-deduct-value
iteration, sample-unit PCI, and area-weighted section PCI).

Numbers are modelled as exact rationals (`ℚ`); Python floats carry no
rounding concern for the structural properties proved here.  Functions that
raise in Python return `Except String`.
-/

/-! ## curves.py -/

/-- Model of `bisect.bisect_right(x_values, x)`: on an ascending list this is
the number of entries `≤ x`, i.e. the insertion point to the right of any run
of entries equal to `x`. -/
def bisectRight (xs : List ℚ) (x : ℚ) : Nat :=
  xs.countP (fun a => decide (a ≤ x))

/-- `curves.interpolate_curve(points, x)`: linear interpolation on a curve of
(x, y) points sorted by x ascending, with flat extrapolation outside the
range.  The final catch-all arm models the Python IndexError that indexing
with an out-of-range bisect result would raise; it is unreachable for sorted
input. -/
def interpolate_curve (points : List (ℚ × ℚ)) (x : ℚ) : Except String ℚ :=
  match points with
  | [] => .error "Points list cannot be empty"
  | p :: ps =>
    if x ≤ p.1 then .ok p.2
    else if ((p :: ps).getLast (List.cons_ne_nil p ps)).1 ≤ x then
      .ok ((p :: ps).getLast (List.cons_ne_nil p ps)).2
    else
      let idx := bisectRight ((p :: ps).map Prod.fst) x
      match (p :: ps)[idx - 1]?, (p :: ps)[idx]? with
      | some q0, some q1 =>
        if q1.1 = q0.1 then .ok q0.2
        else .ok (q0.2 + (x - q0.1) / (q1.1 - q0.1) * (q1.2 - q0.2))
      | _, _ => .error "list index out of range"

/-- `curves.validate_curve(points, name)`: non-empty, at least two points,
strictly increasing x, all coordinates non-negative. -/
def validate_curve (points : List (ℚ × ℚ)) : Bool :=
  decide (points ≠ []) &&
  decide (2 ≤ points.length) &&
  (points.map Prod.fst).Chain' (fun a b => decide (a < b)) &&
  points.all (fun q => decide (0 ≤ q.1) && decide (0 ≤ q.2))

/-- Clamp to the valid deduct-value range, `max(0, min(100, v))`. -/
def clamp100 (v : ℚ) : ℚ := max 0 (min 100 v)

/-- `DeductCurve.get_deduct_value`: interpolate on the stored points (the
constructor left them sorted by x) and clamp to [0, 100]. -/
def DeductCurve.get_deduct_value (points : List (ℚ × ℚ)) (density : ℚ) :
    Except String ℚ :=
  (interpolate_curve points density).map clamp100

/-- `CDVCurve.get_cdv`: interpolate on the stored points and clamp to
[0, 100]. -/
def CDVCurve.get_cdv (points : List (ℚ × ℚ)) (tdv : ℚ) : Except String ℚ :=
  (interpolate_curve points tdv).map clamp100

/-! ## distresses.py -/

/-- `distresses.Severity`: the L / M / H severity levels. -/
inductive Severity | L | M | H
deriving DecidableEq, Repr

/-- `distresses.DistressUnit`: unit of measurement for distress quantities. -/
inductive DistressUnit | AREA | LINEAR | COUNT
deriving DecidableEq, Repr

/-- `distresses.DistressType` (the name field is omitted; it is only used in
messages). -/
structure DistressType where
  id : Nat
  unit : DistressUnit
  has_severity : Bool := true
deriving DecidableEq, Repr

/-- `DistressType.calculate_density(quantity, sample_area)`:
`quantity / sample_area * 100`, uniform across unit kinds; raises when the
sample area is not positive. -/
def DistressType.calculate_density (quantity sample_area : ℚ) :
    Except String ℚ :=
  if sample_area ≤ 0 then .error "Sample area must be positive"
  else .ok (quantity / sample_area * 100)

/-- `distresses.DistressObservation`. -/
structure DistressObservation where
  distress_type : DistressType
  severity : Option Severity
  quantity : ℚ
deriving DecidableEq, Repr

/-- The `__post_init__` validation of `DistressObservation`. -/
def DistressObservation.valid (obs : DistressObservation) : Bool :=
  (obs.distress_type.has_severity == obs.severity.isSome) &&
  decide (0 ≤ obs.quantity)

/-! ## calculator.py -/

/-- `calculator.PCIRating`: PCI condition rating categories. -/
inductive PCIRating
  | GOOD | SATISFACTORY | FAIR | POOR | VERY_POOR | SERIOUS | FAILED
deriving DecidableEq, Repr

/-- `calculator.get_pci_rating(pci)`: numeric PCI to condition rating. -/
def get_pci_rating (pci : ℚ) : PCIRating :=
  if 85 ≤ pci then .GOOD
  else if 70 ≤ pci then .SATISFACTORY
  else if 55 ≤ pci then .FAIR
  else if 40 ≤ pci then .POOR
  else if 25 ≤ pci then .VERY_POOR
  else if 10 ≤ pci then .SERIOUS
  else .FAILED

/-- `calculator.PCIResult`. -/
structure PCIResult where
  pci : ℚ
  rating : PCIRating
  deduct_values : List ℚ
  max_cdv : ℚ
  iteration_cdvs : List ℚ
deriving DecidableEq, Repr

/-- `calculator.PCICalculator` state: the two curve tables, as association
lists.  The stored point lists are as the `DeductCurve` / `CDVCurve`
constructors left them: sorted by x ascending.  Deduct curves are keyed by
(distress id, severity-or-none); in the source the key holds
`severity.value`, a string in bijection with `Option Severity`. -/
structure PCICalculator where
  deduct_curves : List ((Nat × Option Severity) × List (ℚ × ℚ))
  cdv_curves : List (Nat × List (ℚ × ℚ))
deriving DecidableEq, Repr

/-- `PCICalculator.get_deduct_value`: look up the deduct curve for the
(distress id, severity) key; raise a lookup error when absent. -/
def PCICalculator.get_deduct_value (c : PCICalculator) (distress_id : Nat)
    (severity : Option Severity) (density : ℚ) : Except String ℚ :=
  match c.deduct_curves.lookup (distress_id, severity) with
  | none => .error ("No deduct curve for distress " ++ toString distress_id)
  | some points => DeductCurve.get_deduct_value points density

/-- `PCICalculator.get_cdv(tdv, q)`: clamp `q` to at most the largest
registered bucket (`min(q, max(keys))`, which raises when the table is
empty), then to at least 1, and look the clamped key up; raise a lookup
error when there is no curve under the clamped key. -/
def PCICalculator.get_cdv (c : PCICalculator) (tdv : ℚ) (q : Nat) :
    Except String ℚ :=
  match c.cdv_curves.map Prod.fst with
  | [] => .error "max() arg is an empty sequence"
  | k :: ks =>
    let q_clamped := max 1 (min q (ks.foldl max k))
    match c.cdv_curves.lookup q_clamped with
    | none => .error ("No CDV curve for q=" ++ toString q_clamped)
    | some points => CDVCurve.get_cdv points tdv

/-- Python `int(...)` on a rational: truncation toward zero. -/
def pyInt (q : ℚ) : ℤ :=
  if q < 0 then -⌊-q⌋ else ⌊q⌋

/-- The `MAX_DEDUCT_VALUES_FORMULA` class constant. -/
def MAX_DEDUCT_VALUES_FORMULA : Bool := true

/-- `PCICalculator._calculate_max_deduct_values(highest_dv)`:
`max(1, int(1 + (9/98) * (100 - highest_dv)))`.  The result is at least 1,
so returning it as a `Nat` via `Int.toNat` is faithful. -/
def PCICalculator.calculate_max_deduct_values (highest_dv : ℚ) : Nat :=
  if !MAX_DEDUCT_VALUES_FORMULA then 100
  else (max 1 (pyInt (1 + (9 / 98) * (100 - highest_dv)))).toNat

/-- Python `max(iterable)` on a list of rationals.  The `[]` arm is the
ValueError arm of Python `max`; every use below is guarded by a proof that
the list is non-empty. -/
def pyMax : List ℚ → ℚ
  | [] => 0
  | a :: rest => rest.foldl max a

/-- One step of Python `list.sort(reverse=True)` modelled as insertion into
a descending-sorted list.  On rationals any correct descending sort agrees
with the stable CPython sort, since equal elements are indistinguishable. -/
def insertDesc (a : ℚ) : List ℚ → List ℚ
  | [] => [a]
  | b :: t => if b < a then a :: b :: t else b :: insertDesc a t

/-- `deduct_values.sort(reverse=True)`: sort descending. -/
def sortDesc (l : List ℚ) : List ℚ := l.foldr insertDesc []

/-- The empty-distress short-circuit result of `calculate_sample_pci`
(source lines 213-219 and 230-236). -/
def perfectResult : PCIResult :=
  { pci := 100, rating := .GOOD, deduct_values := [], max_cdv := 0,
    iteration_cdvs := [] }

/-- Step 1 of `calculate_sample_pci` (source lines 222-227): per observation
compute the density, look up the deduct value, and keep it only when
positive. -/
def calculate_deduct_values (c : PCICalculator)
    (observations : List DistressObservation) (sample_area : ℚ) :
    Except String (List ℚ) :=
  match observations with
  | [] => .ok []
  | obs :: rest =>
    match DistressType.calculate_density obs.quantity sample_area with
    | .error e => .error e
    | .ok density =>
      match c.get_deduct_value obs.distress_type.id obs.severity density with
      | .error e => .error e
      | .ok dv =>
        match calculate_deduct_values c rest sample_area with
        | .error e => .error e
        | .ok tail => if 0 < dv then .ok (dv :: tail) else .ok tail

/-- Step 2 of `calculate_sample_pci` (source lines 238-241): sort the deduct
values descending and truncate to the maximum allowed count, computed from
the highest deduct value `deduct_values[0]`.  `headD 0` stands for the
Python `[0]` index; every use is on a non-empty list. -/
def cappedDVs (deduct_values : List ℚ) : List ℚ :=
  let sorted := sortDesc deduct_values
  sorted.take (PCICalculator.calculate_max_deduct_values (sorted.headD 0))

/-- The in-place update of step 4d (source lines 264-267): scan from the
right for the first entry greater than 2.0 and replace it with exactly
2.0. -/
def replaceLastGT2 : List ℚ → List ℚ
  | [] => []
  | a :: rest =>
    if rest.countP (fun dv => decide (2 < dv)) ≠ 0 then a :: replaceLastGT2 rest
    else if 2 < a then 2 :: rest else a :: rest

/-- Replacing the rightmost entry greater than 2 removes exactly one entry
from the count of entries greater than 2. -/
theorem countP_replaceLastGT2 (l : List ℚ)
    (h : 0 < l.countP (fun dv => decide (2 < dv))) :
    (replaceLastGT2 l).countP (fun dv => decide (2 < dv)) =
      l.countP (fun dv => decide (2 < dv)) - 1 := by
  induction l with
  | nil => simp at h
  | cons a rest ih =>
    by_cases hrest : rest.countP (fun dv => decide (2 < dv)) ≠ 0
    · have := ih (Nat.pos_of_ne_zero hrest)
      simp only [replaceLastGT2, if_pos hrest, List.countP_cons, this]
      omega
    · push_neg at hrest
      simp only [List.countP_cons, hrest] at h ⊢
      have ha : 2 < a := by
        by_contra hle
        simp [hle] at h
      simp [replaceLastGT2, hrest, ha]

/-- The CDV iteration loop of `calculate_sample_pci` (source lines 247-267),
returning the list of per-round CDVs.  The loop is given here with an
explicit structural bound on the number of rounds; each round with `q > 1`
strictly decreases the count of working-set entries greater than 2, so the
bound passed by `cdvLoop` below is never exhausted
(`cdvLoopFuel_irrelevant`), and the fuel-exhaustion arm is unreachable. -/
def cdvLoopFuel (c : PCICalculator) : Nat → List ℚ → Except String (List ℚ)
  | 0, _ => .error "unreachable: loop bound exhausted"
  | fuel + 1, dvs =>
    let q0 := dvs.countP (fun dv => decide (2 < dv))
    let q := if q0 = 0 then 1 else q0
    match c.get_cdv dvs.sum q with
    | .error e => .error e
    | .ok cdv =>
      if q ≤ 1 then .ok [cdv]
      else
        match cdvLoopFuel c fuel (replaceLastGT2 dvs) with
        | .error e => .error e
        | .ok rest => .ok (cdv :: rest)

/-- The CDV iteration loop (source lines 247-267). -/
def cdvLoop (c : PCICalculator) (dvs : List ℚ) : Except String (List ℚ) :=
  cdvLoopFuel c (dvs.countP (fun dv => decide (2 < dv)) + 1) dvs

/-- Any bound strictly above the count of entries greater than 2 gives the
same run of the loop: the bound in `cdvLoop` is never exhausted. -/
theorem cdvLoopFuel_irrelevant (c : PCICalculator) :
    ∀ (n m : Nat) (dvs : List ℚ),
      dvs.countP (fun dv => decide (2 < dv)) < n →
      dvs.countP (fun dv => decide (2 < dv)) < m →
      cdvLoopFuel c n dvs = cdvLoopFuel c m dvs := by
  intro n
  induction n with
  | zero => intro m dvs hn; exact absurd hn (by omega)
  | succ n ih =>
    intro m dvs hn hm
    cases m with
    | zero => exact absurd hm (by omega)
    | succ m =>
      simp only [cdvLoopFuel]
      by_cases hq : (if dvs.countP (fun dv => decide (2 < dv)) = 0 then 1
          else dvs.countP (fun dv => decide (2 < dv))) ≤ 1
      · simp only [if_pos hq]
      · have hq0 : 2 ≤ dvs.countP (fun dv => decide (2 < dv)) := by
          by_cases h0 : dvs.countP (fun dv => decide (2 < dv)) = 0
          · rw [if_pos h0] at hq; omega
          · rw [if_neg h0] at hq; omega
        have hrepl := countP_replaceLastGT2 dvs (by omega)
        simp only [if_neg hq, ih m (replaceLastGT2 dvs) (by omega) (by omega)]

/-- The recurrence the while loop satisfies: unfold one round. -/
theorem cdvLoop_eq (c : PCICalculator) (dvs : List ℚ) :
    cdvLoop c dvs =
      (match c.get_cdv dvs.sum
          (if dvs.countP (fun dv => decide (2 < dv)) = 0 then 1
           else dvs.countP (fun dv => decide (2 < dv))) with
       | .error e => .error e
       | .ok cdv =>
         if (if dvs.countP (fun dv => decide (2 < dv)) = 0 then 1
             else dvs.countP (fun dv => decide (2 < dv))) ≤ 1 then .ok [cdv]
         else
           match cdvLoop c (replaceLastGT2 dvs) with
           | .error e => .error e
           | .ok rest => .ok (cdv :: rest)) := by
  show cdvLoopFuel c (dvs.countP (fun dv => decide (2 < dv)) + 1) dvs = _
  simp only [cdvLoopFuel]
  by_cases hq : (if dvs.countP (fun dv => decide (2 < dv)) = 0 then 1
      else dvs.countP (fun dv => decide (2 < dv))) ≤ 1
  · simp only [if_pos hq]
  · have hq0 : 2 ≤ dvs.countP (fun dv => decide (2 < dv)) := by
      by_cases h0 : dvs.countP (fun dv => decide (2 < dv)) = 0
      · rw [if_pos h0] at hq; omega
      · rw [if_neg h0] at hq; omega
    have hrepl := countP_replaceLastGT2 dvs (by omega)
    simp only [if_neg hq,
      cdvLoopFuel_irrelevant c (dvs.countP (fun dv => decide (2 < dv)))
        ((replaceLastGT2 dvs).countP (fun dv => decide (2 < dv)) + 1)
        (replaceLastGT2 dvs) (by omega) (by omega)]
    rfl

/-- `PCICalculator.calculate_sample_pci(observations, sample_area)`. -/
def PCICalculator.calculate_sample_pci (c : PCICalculator)
    (observations : List DistressObservation) (sample_area : ℚ) :
    Except String PCIResult :=
  if sample_area ≤ 0 then .error "Sample area must be positive"
  else if observations = [] then .ok perfectResult
  else
    match calculate_deduct_values c observations sample_area with
    | .error e => .error e
    | .ok deduct_values =>
      if deduct_values = [] then .ok perfectResult
      else
        let capped := cappedDVs deduct_values
        match cdvLoop c capped with
        | .error e => .error e
        | .ok iteration_cdvs =>
          let max_cdv := pyMax iteration_cdvs
          let pci := max 0 (min 100 (100 - max_cdv))
          .ok { pci := pci, rating := get_pci_rating pci,
                deduct_values := capped, max_cdv := max_cdv,
                iteration_cdvs := iteration_cdvs }

/-- `calculator.SampleUnit`. -/
structure SampleUnit where
  id : String
  area : ℚ
  observations : List DistressObservation
deriving DecidableEq, Repr

/-- `calculator.PavementSection`. -/
structure PavementSection where
  id : String
  sample_units : List SampleUnit
deriving DecidableEq, Repr

/-- The accumulation loop of `calculate_section_pci` (source lines
333-336): sum `result.pci * su.area` over the sample units, propagating the
first raised error. -/
def weighted_pci_sum (c : PCICalculator) : List SampleUnit →
    Except String ℚ
  | [] => .ok 0
  | su :: rest =>
    match c.calculate_sample_pci su.observations su.area with
    | .error e => .error e
    | .ok result =>
      match weighted_pci_sum c rest with
      | .error e => .error e
      | .ok ws => .ok (result.pci * su.area + ws)

/-- `PavementSection.calculate_section_pci(calculator)`: area-weighted mean
of per-sample PCIs; an empty section or zero total area returns 100. -/
def PavementSection.calculate_section_pci (sec : PavementSection)
    (c : PCICalculator) : Except String ℚ :=
  if sec.sample_units = [] then .ok 100
  else
    let total_area := (sec.sample_units.map SampleUnit.area).sum
    if total_area = 0 then .ok 100
    else
      match weighted_pci_sum c sec.sample_units with
      | .error e => .error e
      | .ok weighted_sum => .ok (weighted_sum / total_area)

example : interpolate_curve [(0, 0), (200, 100)] 50 = .ok 25 := by
  norm_num [interpolate_curve, bisectRight, List.countP_cons]

/-! ## Helper lemmas -/

/-- Unfold an `Except.map` that produced `ok`. -/
theorem except_map_ok {f : ℚ → ℚ} {e : Except String ℚ} {b : ℚ}
    (h : e.map f = .ok b) : ∃ a, e = .ok a ∧ f a = b := by
  cases e with
  | error msg => exact absurd h (by simp [Except.map])
  | ok a => exact ⟨a, rfl, by simpa [Except.map] using h⟩

theorem clamp100_nonneg (v : ℚ) : 0 ≤ clamp100 v := le_max_left 0 _

theorem clamp100_le (v : ℚ) : clamp100 v ≤ 100 :=
  max_le (by norm_num) (min_le_left 100 v)

theorem clamp100_pos {v : ℚ} (h : 0 < v) : 0 < clamp100 v :=
  lt_max_of_lt_right (lt_min (by norm_num) h)

/-- The `q == 0` adjustment of the loop is a `max` with 1. -/
theorem ifzero_eq_max (n : Nat) : (if n = 0 then 1 else n) = max 1 n := by
  cases n <;> simp

theorem insertDesc_perm (a : ℚ) (l : List ℚ) :
    (insertDesc a l).Perm (a :: l) := by
  induction l with
  | nil => exact List.Perm.refl _
  | cons b t ih =>
    by_cases hb : b < a
    · simp [insertDesc, hb]
    · simp only [insertDesc, if_neg hb]
      exact ((ih.cons b).trans (List.Perm.swap a b t)).symm.symm

theorem mem_insertDesc {x a : ℚ} {l : List ℚ} :
    x ∈ insertDesc a l ↔ x = a ∨ x ∈ l := by
  rw [(insertDesc_perm a l).mem_iff, List.mem_cons]

theorem insertDesc_sorted (a : ℚ) {l : List ℚ}
    (h : l.Sorted (fun x y => y ≤ x)) :
    (insertDesc a l).Sorted (fun x y => y ≤ x) := by
  induction l with
  | nil => simp [insertDesc]
  | cons b t ih =>
    have h' := List.sorted_cons.mp h
    by_cases hb : b < a
    · simp only [insertDesc, if_pos hb, List.sorted_cons]
      refine ⟨?_, h'⟩
      intro x hx
      rcases List.mem_cons.mp hx with rfl | hx
      · exact le_of_lt hb
      · exact le_trans (h'.1 x hx) (le_of_lt hb)
    · simp only [insertDesc, if_neg hb, List.sorted_cons]
      refine ⟨?_, ih h'.2⟩
      intro x hx
      rcases mem_insertDesc.mp hx with rfl | hx
      · exact le_of_not_lt hb
      · exact h'.1 x hx

theorem sortDesc_perm (l : List ℚ) : (sortDesc l).Perm l := by
  induction l with
  | nil => exact List.Perm.refl _
  | cons a t ih =>
    exact (insertDesc_perm a (sortDesc t)).trans (ih.cons a)

theorem mem_sortDesc {x : ℚ} {l : List ℚ} : x ∈ sortDesc l ↔ x ∈ l :=
  (sortDesc_perm l).mem_iff

theorem sortDesc_sorted (l : List ℚ) :
    (sortDesc l).Sorted (fun x y => y ≤ x) := by
  induction l with
  | nil => simp [sortDesc]
  | cons a t ih => exact insertDesc_sorted a ih

theorem sortDesc_eq_nil_iff {l : List ℚ} : sortDesc l = [] ↔ l = [] := by
  constructor
  · intro h
    have := (sortDesc_perm l).length_eq
    rw [h] at this
    exact List.length_eq_zero.mp this.symm
  · intro h; rw [h]; rfl

/-- The head of the descending sort bounds every element of the list. -/
theorem le_sortDesc_head {x : ℚ} {l : List ℚ} (hx : x ∈ l) :
    x ≤ (sortDesc l).headD 0 := by
  have hx' : x ∈ sortDesc l := mem_sortDesc.mpr hx
  match hs : sortDesc l with
  | [] => rw [hs] at hx'; exact absurd hx' (List.not_mem_nil x)
  | h :: t =>
    rw [hs] at hx'
    have := sortDesc_sorted l
    rw [hs, List.sorted_cons] at this
    rcases List.mem_cons.mp hx' with rfl | hmem
    · exact le_refl _
    · exact this.1 x hmem

/-- The head of the descending sort of a non-empty list is one of its
elements. -/
theorem sortDesc_head_mem {l : List ℚ} (h : l ≠ []) :
    (sortDesc l).headD 0 ∈ l := by
  match hs : sortDesc l with
  | [] => exact absurd (sortDesc_eq_nil_iff.mp hs) h
  | a :: t =>
    have : a ∈ sortDesc l := by rw [hs]; exact List.mem_cons_self a t
    simpa using mem_sortDesc.mp this

theorem foldl_max_le_of (a : ℚ) (l : List ℚ) : a ≤ l.foldl max a := by
  induction l generalizing a with
  | nil => exact le_refl a
  | cons b t ih => exact le_trans (le_max_left a b) (ih (max a b))

theorem mem_le_foldl_max {x : ℚ} (t : List ℚ) :
    ∀ a : ℚ, x ∈ t → x ≤ t.foldl max a := by
  induction t with
  | nil => intro a hx; exact absurd hx (List.not_mem_nil x)
  | cons b t ih =>
    intro a hx
    rcases List.mem_cons.mp hx with rfl | hm
    · exact le_trans (le_max_right a x) (foldl_max_le_of (max a x) t)
    · exact ih (max a b) hm

theorem le_pyMax_of_mem {x : ℚ} {l : List ℚ} (hx : x ∈ l) : x ≤ pyMax l := by
  match l, hx with
  | a :: rest, hx =>
    rcases List.mem_cons.mp hx with rfl | hmem
    · exact foldl_max_le_of x rest
    · exact mem_le_foldl_max rest a hmem

theorem foldl_max_mem (t : List ℚ) : ∀ a : ℚ, t.foldl max a ∈ a :: t := by
  induction t with
  | nil => intro a; exact List.mem_singleton.mpr rfl
  | cons b t ih =>
    intro a
    have h := ih (max a b)
    rcases List.mem_cons.mp h with hm | hm
    · show t.foldl max (max a b) ∈ a :: b :: t
      rw [hm]
      rcases max_choice a b with hab | hab
      · rw [hab]; exact List.mem_cons_self a (b :: t)
      · rw [hab]; exact List.mem_cons_of_mem a (List.mem_cons_self b t)
    · exact List.mem_cons_of_mem a (List.mem_cons_of_mem b hm)

theorem pyMax_mem {l : List ℚ} (h : l ≠ []) : pyMax l ∈ l := by
  match l with
  | a :: rest => exact foldl_max_mem rest a

/-- Characterisation of the step 4d update: there is a rightmost entry
greater than 2 (every entry to its right is at most 2), and the update
replaces exactly that entry with 2. -/
theorem replaceLastGT2_spec (l : List ℚ)
    (h : 0 < l.countP (fun dv => decide (2 < dv))) :
    ∃ i, ∃ hi : i < l.length, 2 < l.get ⟨i, hi⟩ ∧
      (∀ j, ∀ hj : j < l.length, i < j → l.get ⟨j, hj⟩ ≤ 2) ∧
      replaceLastGT2 l = l.set i 2 := by
  induction l with
  | nil => simp at h
  | cons a rest ih =>
    by_cases hrest : rest.countP (fun dv => decide (2 < dv)) ≠ 0
    · obtain ⟨i, hi, hgt, hright, heq⟩ := ih (Nat.pos_of_ne_zero hrest)
      refine ⟨i + 1, by simpa using Nat.succ_lt_succ hi, by simpa using hgt,
        ?_, ?_⟩
      · intro j hj hij
        match j, hj with
        | j + 1, hj =>
          exact hright j (by simpa using Nat.lt_of_succ_lt_succ hj)
            (Nat.lt_of_succ_lt_succ hij)
      · simp only [replaceLastGT2, if_pos hrest, heq, List.set_cons_succ]
    · push_neg at hrest
      have hall : ∀ x ∈ rest, ¬(2 < x) := by
        intro x hx
        have := List.countP_eq_zero.mp hrest x hx
        simpa using this
      have ha : 2 < a := by
        rw [List.countP_cons, hrest] at h
        by_cases h2 : 2 < a
        · exact h2
        · simp [h2] at h
      refine ⟨0, Nat.succ_pos _, ha, ?_, ?_⟩
      · intro j hj hij
        match j, hj with
        | j + 1, hj =>
          exact le_of_not_lt (hall _ (List.get_mem rest j (Nat.lt_of_succ_lt_succ hj)))
      · simp only [replaceLastGT2, hrest, ite_false, if_pos ha, List.set_cons_zero]
        simp

/-- A round whose working set has at most one entry above 2 records one CDV
(looked up with q = 1) and stops. -/
theorem cdvLoop_stop_ok {c : PCICalculator} {dvs l : List ℚ}
    (h : dvs.countP (fun dv => decide (2 < dv)) ≤ 1)
    (hok : cdvLoop c dvs = .ok l) :
    ∃ cdv, c.get_cdv dvs.sum 1 = .ok cdv ∧ l = [cdv] := by
  rw [cdvLoop_eq] at hok
  have h1 : (if dvs.countP (fun dv => decide (2 < dv)) = 0 then 1
      else dvs.countP (fun dv => decide (2 < dv))) = 1 := by
    split
    · rfl
    · omega
  rw [h1] at hok
  split at hok
  · exact Except.noConfusion hok
  · rename_i cdv heq
    rw [if_pos (le_refl 1)] at hok
    exact ⟨cdv, heq, (Except.ok.injEq _ _ ▸ hok).symm⟩

/-- A round whose working set has at least two entries above 2 records one
CDV (looked up with q = that count) and recurses on the flattened set. -/
theorem cdvLoop_step_ok {c : PCICalculator} {dvs l : List ℚ}
    (h : 2 ≤ dvs.countP (fun dv => decide (2 < dv)))
    (hok : cdvLoop c dvs = .ok l) :
    ∃ cdv rest,
      c.get_cdv dvs.sum (dvs.countP (fun dv => decide (2 < dv))) = .ok cdv ∧
      cdvLoop c (replaceLastGT2 dvs) = .ok rest ∧ l = cdv :: rest := by
  rw [cdvLoop_eq] at hok
  have h1 : (if dvs.countP (fun dv => decide (2 < dv)) = 0 then 1
      else dvs.countP (fun dv => decide (2 < dv))) =
      dvs.countP (fun dv => decide (2 < dv)) := if_neg (by omega)
  rw [h1] at hok
  simp only [if_neg (show ¬dvs.countP (fun dv => decide (2 < dv)) ≤ 1 by
    omega)] at hok
  split at hok
  · exact Except.noConfusion hok
  · rename_i cdv heq
    split at hok
    · exact Except.noConfusion hok
    · rename_i rest hrec
      exact ⟨cdv, rest, heq, hrec, (Except.ok.injEq _ _ ▸ hok).symm⟩

/-- A successful run of the loop records exactly `max 1 q0` CDVs, where
`q0` is the initial count of working-set entries above 2. -/
theorem cdvLoop_ok_length {c : PCICalculator} :
    ∀ (n : Nat) (dvs l : List ℚ),
      dvs.countP (fun dv => decide (2 < dv)) = n →
      cdvLoop c dvs = .ok l → l.length = max 1 n := by
  intro n
  induction n using Nat.strong_induction_on with
  | _ n ih =>
    intro dvs l hn hok
    by_cases hn1 : n ≤ 1
    · obtain ⟨cdv, -, rfl⟩ := cdvLoop_stop_ok (by omega) hok
      simp; omega
    · obtain ⟨cdv, rest, -, hrec, rfl⟩ := cdvLoop_step_ok (by omega) hok
      have hcount := countP_replaceLastGT2 dvs (by omega)
      have := ih (n - 1) (by omega) (replaceLastGT2 dvs) rest (by omega) hrec
      simp [this]; omega

/-- A successful run of the loop is non-empty and starts with the CDV of
the first round, looked up at the sum of the initial working set with
`q = max 1 q0`. -/
theorem cdvLoop_ok_head {c : PCICalculator} {dvs l : List ℚ}
    (hok : cdvLoop c dvs = .ok l) :
    ∃ cdv,
      c.get_cdv dvs.sum
        (max 1 (dvs.countP (fun dv => decide (2 < dv)))) = .ok cdv ∧
      l = cdv :: l.tail := by
  by_cases h1 : dvs.countP (fun dv => decide (2 < dv)) ≤ 1
  · obtain ⟨cdv, heq, rfl⟩ := cdvLoop_stop_ok h1 hok
    refine ⟨cdv, ?_, rfl⟩
    rwa [show max 1 (dvs.countP (fun dv => decide (2 < dv))) = 1 by omega]
  · obtain ⟨cdv, rest, heq, -, rfl⟩ := cdvLoop_step_ok (by omega) hok
    refine ⟨cdv, ?_, rfl⟩
    rwa [show max 1 (dvs.countP (fun dv => decide (2 < dv))) =
        dvs.countP (fun dv => decide (2 < dv)) by omega]

/-- A successful deduct-value lookup is clamped to [0, 100]. -/
theorem get_deduct_value_bounds {c : PCICalculator} {i : Nat}
    {sev : Option Severity} {d v : ℚ}
    (h : c.get_deduct_value i sev d = .ok v) : 0 ≤ v ∧ v ≤ 100 := by
  unfold PCICalculator.get_deduct_value at h
  split at h
  · exact Except.noConfusion h
  · obtain ⟨y, -, rfl⟩ := except_map_ok h
    exact ⟨clamp100_nonneg y, clamp100_le y⟩

/-- Every deduct value kept by step 1 is positive (zero values are
discarded) and at most 100 (curve lookups clamp). -/
theorem calculate_deduct_values_bounds {c : PCICalculator}
    {obs : List DistressObservation} {A : ℚ} {dvl : List ℚ}
    (h : calculate_deduct_values c obs A = .ok dvl) :
    ∀ v ∈ dvl, 0 < v ∧ v ≤ 100 := by
  induction obs generalizing dvl with
  | nil =>
    unfold calculate_deduct_values at h
    cases h
    intro v hv
    exact absurd hv (List.not_mem_nil v)
  | cons o rest ih =>
    unfold calculate_deduct_values at h
    split at h
    · exact Except.noConfusion h
    · split at h
      · exact Except.noConfusion h
      · rename_i dv hdv
        split at h
        · exact Except.noConfusion h
        · rename_i tail htail
          split at h
          · rename_i hpos
            cases h
            intro v hv
            rcases List.mem_cons.mp hv with rfl | hv
            · exact ⟨hpos, (get_deduct_value_bounds hdv).2⟩
            · exact ih htail v hv
          · cases h
            intro v hv
            exact ih htail v hv

/-- The maximum-deduct-value count is at least 1. -/
theorem calculate_max_deduct_values_pos (hdv : ℚ) :
    1 ≤ PCICalculator.calculate_max_deduct_values hdv := by
  unfold PCICalculator.calculate_max_deduct_values
  simp only [MAX_DEDUCT_VALUES_FORMULA, Bool.not_true, Bool.false_eq_true,
    if_false]
  have : (1 : ℤ) ≤ max 1 (pyInt (1 + 9 / 98 * (100 - hdv))) := le_max_left _ _
  omega

/-- The capped list is non-empty when the deduct-value list is. -/
theorem cappedDVs_ne_nil {dvl : List ℚ} (h : dvl ≠ []) : cappedDVs dvl ≠ [] := by
  unfold cappedDVs
  intro hc
  rcases List.take_eq_nil_iff.mp hc with h0 | h0
  · have := calculate_max_deduct_values_pos ((sortDesc dvl).headD 0)
    omega
  · exact h (sortDesc_eq_nil_iff.mp h0)

/-- Every entry of the capped list is one of the computed deduct values. -/
theorem cappedDVs_subset {v : ℚ} {dvl : List ℚ} (h : v ∈ cappedDVs dvl) :
    v ∈ dvl :=
  mem_sortDesc.mp (List.take_subset _ _ h)

/-- The capped list never exceeds the allowed count. -/
theorem cappedDVs_length (dvl : List ℚ) :
    (cappedDVs dvl).length ≤
      PCICalculator.calculate_max_deduct_values ((sortDesc dvl).headD 0) := by
  unfold cappedDVs
  simp [List.length_take]

/-- Destructor for a successful `calculate_sample_pci` run in which at
least one positive deduct value was computed: the result is assembled from
the capped list and a successful loop run exactly as in source lines
238-280. -/
theorem calculate_sample_pci_ok {c : PCICalculator}
    {obs : List DistressObservation} {A : ℚ} {r : PCIResult} {dvl : List ℚ}
    (h : c.calculate_sample_pci obs A = .ok r)
    (hd : calculate_deduct_values c obs A = .ok dvl) (hne : dvl ≠ []) :
    ∃ ics, cdvLoop c (cappedDVs dvl) = .ok ics ∧
      r = { pci := max 0 (min 100 (100 - pyMax ics)),
            rating := get_pci_rating (max 0 (min 100 (100 - pyMax ics))),
            deduct_values := cappedDVs dvl, max_cdv := pyMax ics,
            iteration_cdvs := ics } := by
  unfold PCICalculator.calculate_sample_pci at h
  split at h
  · exact Except.noConfusion h
  · split at h
    · rename_i hobs
      rw [hobs] at hd
      unfold calculate_deduct_values at hd
      cases hd
      exact absurd rfl hne
    · split at h
      · rename_i e heq
        rw [hd] at heq
        exact Except.noConfusion heq
      · rename_i deduct_values heq
        rw [hd] at heq
        cases heq
        split at h
        · exact absurd (by assumption) hne
        · replace h :
              (match cdvLoop c (cappedDVs dvl) with
               | Except.error e => Except.error e
               | Except.ok iteration_cdvs =>
                 Except.ok
                   { pci := max 0 (min 100 (100 - pyMax iteration_cdvs)),
                     rating :=
                       get_pci_rating (max 0 (min 100 (100 - pyMax iteration_cdvs))),
                     deduct_values := cappedDVs dvl,
                     max_cdv := pyMax iteration_cdvs,
                     iteration_cdvs := iteration_cdvs }) = Except.ok r := h
          split at h
          · exact Except.noConfusion h
          · rename_i ics hics
            exact ⟨ics, hics, (Except.ok.injEq _ _ ▸ h).symm⟩

/-- Both short-circuit branches of `calculate_sample_pci` (no observations,
or no positive deduct value) return the perfect-pavement result. -/
theorem calculate_sample_pci_perfect {c : PCICalculator}
    {obs : List DistressObservation} {A : ℚ} {r : PCIResult} {dvl : List ℚ}
    (h : c.calculate_sample_pci obs A = .ok r)
    (hd : calculate_deduct_values c obs A = .ok dvl)
    (hor : obs = [] ∨ dvl = []) : r = perfectResult := by
  unfold PCICalculator.calculate_sample_pci at h
  split at h
  · exact Except.noConfusion h
  · split at h
    · exact ((Except.ok.injEq _ _).mp h).symm
    · rename_i hobs
      have hdvl : dvl = [] := by
        rcases hor with h1 | h1
        · exact absurd h1 hobs
        · exact h1
      split at h
      · rename_i e heq
        rw [hd] at heq
        exact Except.noConfusion heq
      · rename_i deduct_values heq
        rw [hd] at heq
        cases heq
        split at h
        · exact ((Except.ok.injEq _ _).mp h).symm
        · exact absurd hdvl (by assumption)

/-! ## Claim theorems -/

/-- Claim C1: whenever at least one positive deduct value is computed (so
the deduct list survives non-empty) and `calculate_sample_pci` returns a
result, the iteration history is non-empty (round 1 is recorded even when
`q ≤ 1` from the start) and the returned pci equals
`100 - max(iteration_cdvs)` clamped to [0, 100], where the maximum is over
the recorded per-round CDVs. -/
theorem claim_C1 (c : PCICalculator) (obs : List DistressObservation)
    (A : ℚ) (r : PCIResult) (dvl : List ℚ)
    (h : c.calculate_sample_pci obs A = .ok r)
    (hd : calculate_deduct_values c obs A = .ok dvl) (hne : dvl ≠ []) :
    r.iteration_cdvs ≠ [] ∧
    r.pci = max 0 (min 100 (100 - pyMax r.iteration_cdvs)) ∧
    pyMax r.iteration_cdvs ∈ r.iteration_cdvs ∧
    ∀ x ∈ r.iteration_cdvs, x ≤ pyMax r.iteration_cdvs := by
  obtain ⟨ics, hics, rfl⟩ := calculate_sample_pci_ok h hd hne
  obtain ⟨cdv, -, hcons⟩ := cdvLoop_ok_head hics
  have hnil : ics ≠ [] := by rw [hcons]; exact List.cons_ne_nil _ _
  exact ⟨hnil, rfl, pyMax_mem hnil, fun x hx => le_pyMax_of_mem hx⟩

/-- Claim C2: in every round of the CDV iteration, the recorded CDV is the
lookup at `tdv` = sum of the working set and `q` = count of entries greater
than 2 (0 treated as 1); the loop stops right after recording a round with
`q ≤ 1`; otherwise the rightmost entry greater than 2 is replaced with
exactly 2 and the loop continues on that working set. -/
theorem claim_C2 (c : PCICalculator) (dvs l : List ℚ)
    (hok : cdvLoop c dvs = .ok l) :
    (∃ cdv,
      c.get_cdv dvs.sum
        (max 1 (dvs.countP (fun dv => decide (2 < dv)))) = .ok cdv ∧
      l = cdv :: l.tail) ∧
    (dvs.countP (fun dv => decide (2 < dv)) ≤ 1 → l.tail = []) ∧
    (2 ≤ dvs.countP (fun dv => decide (2 < dv)) →
      (∃ i, ∃ hi : i < dvs.length, 2 < dvs.get ⟨i, hi⟩ ∧
        (∀ j, ∀ hj : j < dvs.length, i < j → dvs.get ⟨j, hj⟩ ≤ 2) ∧
        replaceLastGT2 dvs = dvs.set i 2) ∧
      cdvLoop c (replaceLastGT2 dvs) = .ok l.tail) := by
  refine ⟨(cdvLoop_ok_head hok), ?_, ?_⟩
  · intro h1
    obtain ⟨cdv, -, rfl⟩ := cdvLoop_stop_ok h1 hok
    rfl
  · intro h2
    obtain ⟨cdv, rest, -, hrec, rfl⟩ := cdvLoop_step_ok h2 hok
    exact ⟨replaceLastGT2_spec dvs (by omega), hrec⟩

/-- Claim C3: the surviving positive deduct values are sorted descending
(a descending-sorted permutation of the computed list, whose head is the
highest value HDV), truncated to at most
`m = max(1, floor(1 + (9/98)(100 − HDV)))` entries; that capped list is
what the result reports and what the iteration runs on, and its size never
exceeds `m`. -/
theorem claim_C3 (c : PCICalculator) (obs : List DistressObservation)
    (A : ℚ) (r : PCIResult) (dvl : List ℚ)
    (h : c.calculate_sample_pci obs A = .ok r)
    (hd : calculate_deduct_values c obs A = .ok dvl) (hne : dvl ≠ []) :
    (sortDesc dvl).headD 0 ∈ dvl ∧
    (∀ v ∈ dvl, v ≤ (sortDesc dvl).headD 0) ∧
    (sortDesc dvl).Sorted (fun a b => b ≤ a) ∧
    (sortDesc dvl).Perm dvl ∧
    r.deduct_values =
      (sortDesc dvl).take
        (PCICalculator.calculate_max_deduct_values ((sortDesc dvl).headD 0)) ∧
    cdvLoop c r.deduct_values = .ok r.iteration_cdvs ∧
    PCICalculator.calculate_max_deduct_values ((sortDesc dvl).headD 0) =
      (max 1 ⌊1 + (9 / 98) * (100 - (sortDesc dvl).headD 0)⌋).toNat ∧
    r.deduct_values.length ≤
      (max 1 ⌊1 + (9 / 98) * (100 - (sortDesc dvl).headD 0)⌋).toNat := by
  obtain ⟨ics, hics, rfl⟩ := calculate_sample_pci_ok h hd hne
  have hfloor : PCICalculator.calculate_max_deduct_values
      ((sortDesc dvl).headD 0) =
      (max 1 ⌊1 + (9 / 98) * (100 - (sortDesc dvl).headD 0)⌋).toNat := by
    have hmem := sortDesc_head_mem hne
    have hle := (calculate_deduct_values_bounds hd _ hmem).2
    unfold PCICalculator.calculate_max_deduct_values pyInt
    have harg : ¬(1 + 9 / 98 * (100 - (sortDesc dvl).headD 0) < (0 : ℚ)) := by
      push_neg
      nlinarith
    rw [if_neg harg]
    rfl
  refine ⟨sortDesc_head_mem hne, fun v hv => le_sortDesc_head hv,
    sortDesc_sorted dvl, sortDesc_perm dvl, rfl, hics, hfloor, ?_⟩
  rw [← hfloor]
  exact cappedDVs_length dvl

/-- Claim C5: the CDV loop terminates with a bounded history: each round
with `q > 1` removes exactly one entry above 2 from the working set, and a
successful run records at most (initial count of entries above 2) + 1 CDVs,
which is also at most `m`, the cap on the number of deduct values. -/
theorem claim_C5 (c : PCICalculator) (obs : List DistressObservation)
    (A : ℚ) (r : PCIResult) (dvl : List ℚ)
    (h : c.calculate_sample_pci obs A = .ok r)
    (hd : calculate_deduct_values c obs A = .ok dvl) (hne : dvl ≠ []) :
    r.iteration_cdvs.length ≤
      r.deduct_values.countP (fun dv => decide (2 < dv)) + 1 ∧
    r.iteration_cdvs.length ≤
      PCICalculator.calculate_max_deduct_values ((sortDesc dvl).headD 0) ∧
    (∀ dvs : List ℚ, 0 < dvs.countP (fun dv => decide (2 < dv)) →
      (replaceLastGT2 dvs).countP (fun dv => decide (2 < dv)) =
        dvs.countP (fun dv => decide (2 < dv)) - 1) := by
  obtain ⟨ics, hics, rfl⟩ := calculate_sample_pci_ok h hd hne
  have hlen := cdvLoop_ok_length _ (cappedDVs dvl) ics rfl hics
  have hcount_le : (cappedDVs dvl).countP (fun dv => decide (2 < dv)) ≤
      (cappedDVs dvl).length := List.countP_le_length _
  have hcap := cappedDVs_length dvl
  have hm := calculate_max_deduct_values_pos ((sortDesc dvl).headD 0)
  refine ⟨by simp only [hlen]; omega, by simp only [hlen]; omega,
    countP_replaceLastGT2⟩

/-- Claim C10: the deduct-value list reported in the result is exactly the
capped descending-sorted list as it stood before the CDV iteration began;
the replacements by 2.0 happen only on the separate working copy, so every
reported entry is one of the originally computed deduct values. -/
theorem claim_C10 (c : PCICalculator) (obs : List DistressObservation)
    (A : ℚ) (r : PCIResult) (dvl : List ℚ)
    (h : c.calculate_sample_pci obs A = .ok r)
    (hd : calculate_deduct_values c obs A = .ok dvl) (hne : dvl ≠ []) :
    r.deduct_values = cappedDVs dvl ∧
    ∀ v ∈ r.deduct_values, v ∈ dvl := by
  obtain ⟨ics, -, rfl⟩ := calculate_sample_pci_ok h hd hne
  exact ⟨rfl, fun v hv => cappedDVs_subset hv⟩

/-- Claim C4 (general form): pci is always within [0, 100], and pci = 100
exactly when there are no observations or no positive deduct values — under
the curve-table soundness assumption that a successful CDV lookup at a
positive total deduct value is positive (true of the authoritative ASTM
curves and of the shipped example curves). -/
theorem claim_C4 (c : PCICalculator) (obs : List DistressObservation)
    (A : ℚ) (r : PCIResult) (dvl : List ℚ)
    (hpos : ∀ (tdv : ℚ) (q : Nat) (cdv : ℚ), 0 < tdv →
      c.get_cdv tdv q = .ok cdv → 0 < cdv)
    (h : c.calculate_sample_pci obs A = .ok r)
    (hd : calculate_deduct_values c obs A = .ok dvl) :
    0 ≤ r.pci ∧ r.pci ≤ 100 ∧ (r.pci = 100 ↔ (obs = [] ∨ dvl = [])) := by
  by_cases hor : obs = [] ∨ dvl = []
  · have hr := calculate_sample_pci_perfect h hd hor
    rw [hr]
    refine ⟨by norm_num [perfectResult], by norm_num [perfectResult], ?_⟩
    simp only [perfectResult]
    exact ⟨fun _ => hor, fun _ => trivial⟩
  · push_neg at hor
    obtain ⟨ics, hics, rfl⟩ := calculate_sample_pci_ok h hd hor.2
    obtain ⟨cdv, hcdv, hcons⟩ := cdvLoop_ok_head hics
    have hsum : 0 < (cappedDVs dvl).sum := by
      apply List.sum_pos
      · intro v hv
        exact (calculate_deduct_values_bounds hd v (cappedDVs_subset hv)).1
      · exact cappedDVs_ne_nil hor.2
    have hcdvpos : 0 < cdv := hpos _ _ _ hsum hcdv
    have hmax : cdv ≤ pyMax ics := by
      apply le_pyMax_of_mem
      rw [hcons]
      exact List.mem_cons_self _ _
    constructor
    · exact le_max_left 0 _
    constructor
    · exact max_le (by norm_num) (min_le_left _ _)
    · simp only
      constructor
      · intro h100
        exfalso
        have hlt : max 0 (min 100 (100 - pyMax ics)) < 100 :=
          max_lt (by norm_num) (lt_of_le_of_lt (min_le_right _ _) (by linarith))
        rw [h100] at hlt
        exact lt_irrefl 100 hlt
      · intro habs
        rcases habs with h1 | h1
        · exact absurd h1 hor.1
        · exact absurd h1 hor.2

/-! ## A concrete calculator for witnesses -/

/-- A small calculator: one deduct curve for (distress 1, severity L) and
one CDV curve for q = 1. -/
def wCalc : PCICalculator :=
  { deduct_curves := [((1, some Severity.L), [(0, 0), (100, 100)])],
    cdv_curves := [(1, [(0, 0), (200, 100)])] }

/-- One observation: alligator cracking, low severity, 50 sq ft. -/
def wObs : List DistressObservation :=
  [{ distress_type := { id := 1, unit := .AREA, has_severity := true },
     severity := some Severity.L, quantity := 50 }]

/-- The result of `calculate_sample_pci wObs 100` on `wCalc`. -/
def wRes : PCIResult :=
  { pci := 75, rating := .SATISFACTORY, deduct_values := [50],
    max_cdv := 25, iteration_cdvs := [25] }

theorem w_interp_deduct : interpolate_curve [(0, 0), (100, 100)] 50 = .ok 50 := by
  norm_num [interpolate_curve, bisectRight, List.countP_cons,
    -Prod.mk_zero_zero]

theorem w_interp_cdv : interpolate_curve [(0, 0), (200, 100)] 50 = .ok 25 := by
  norm_num [interpolate_curve, bisectRight, List.countP_cons,
    -Prod.mk_zero_zero]

theorem w_deduct : DeductCurve.get_deduct_value [(0, 0), (100, 100)] 50 = .ok 50 := by
  unfold DeductCurve.get_deduct_value
  rw [w_interp_deduct]
  norm_num [Except.map, clamp100]

theorem w_cdvcurve : CDVCurve.get_cdv [(0, 0), (200, 100)] 50 = .ok 25 := by
  unfold CDVCurve.get_cdv
  rw [w_interp_cdv]
  norm_num [Except.map, clamp100]

theorem w_getcdv (q : Nat) : wCalc.get_cdv 50 q = .ok 25 := by
  have h1 : (1 : Nat) ⊔ q ⊓ 1 = 1 := by omega
  unfold PCICalculator.get_cdv wCalc
  simp only [List.map_cons, List.map_nil, List.foldl_nil]
  rw [h1]
  norm_num [List.lookup, w_cdvcurve, -Prod.mk_zero_zero]

theorem w_dvl : calculate_deduct_values wCalc wObs 100 = .ok [50] := by
  unfold wObs
  norm_num [calculate_deduct_values, DistressType.calculate_density,
    PCICalculator.get_deduct_value, wCalc, List.lookup, w_deduct,
    -Prod.mk_zero_zero]

theorem w_m : PCICalculator.calculate_max_deduct_values 50 = 5 := by
  have hfl : ⌊(1 + 9 / 98 * (100 - 50) : ℚ)⌋ = 5 := by
    rw [Int.floor_eq_iff]
    norm_num
  unfold PCICalculator.calculate_max_deduct_values MAX_DEDUCT_VALUES_FORMULA
    pyInt
  rw [if_neg (by decide), if_neg (by norm_num), hfl]
  rfl

theorem w_capped : cappedDVs [50] = [50] := by
  show ((sortDesc [50]).take
    (PCICalculator.calculate_max_deduct_values ((sortDesc [50]).headD 0))) = _
  norm_num [sortDesc, insertDesc, w_m]

theorem w_loop : cdvLoop wCalc [50] = .ok [25] := by
  show cdvLoopFuel _ _ _ = _
  have hc : List.countP (fun dv => decide (2 < dv)) [(50 : ℚ)] = 1 := by
    norm_num [List.countP_cons]
  simp only [hc, cdvLoopFuel, List.sum_cons, List.sum_nil, add_zero]
  norm_num [w_getcdv 1]

theorem w_pci : wCalc.calculate_sample_pci wObs 100 = .ok wRes := by
  unfold PCICalculator.calculate_sample_pci
  rw [w_dvl]
  norm_num [wObs, w_capped, w_loop, pyMax, get_pci_rating, wRes,
    -Prod.mk_zero_zero]

/-- A calculator with no deduct curves and one constant CDV curve at
height 5, used to instantiate the curve-soundness hypothesis of C4. -/
def wCalc5 : PCICalculator :=
  { deduct_curves := [], cdv_curves := [(1, [(0, 5), (200, 5)])] }

/-- Interpolating anywhere on the constant curve at height 5 gives a
positive value. -/
theorem w_curve5_pos {tdv y : ℚ} (htdv : 0 < tdv)
    (hy : interpolate_curve [(0, 5), (200, 5)] tdv = .ok y) : 0 < y := by
  replace hy :
      (if tdv ≤ (0 : ℚ) then Except.ok (5 : ℚ)
       else if (200 : ℚ) ≤ tdv then Except.ok (5 : ℚ)
       else
         match [((0 : ℚ), (5 : ℚ)), (200, 5)][bisectRight [(0 : ℚ), 200] tdv - 1]?,
             [((0 : ℚ), (5 : ℚ)), (200, 5)][bisectRight [(0 : ℚ), 200] tdv]? with
         | some q0, some q1 =>
           if q1.1 = q0.1 then Except.ok q0.2
           else Except.ok (q0.2 + (tdv - q0.1) / (q1.1 - q0.1) * (q1.2 - q0.2))
         | _, _ => Except.error "list index out of range") = Except.ok y := hy
  rw [if_neg (not_le.mpr htdv)] at hy
  by_cases h2 : (200 : ℚ) ≤ tdv
  · rw [if_pos h2] at hy
    cases hy
    norm_num
  · rw [if_neg h2] at hy
    have hb : bisectRight [(0 : ℚ), 200] tdv = 1 := by
      unfold bisectRight
      simp [List.countP_cons, le_of_lt htdv, h2]
    rw [hb] at hy
    norm_num at hy
    rw [← hy]
    norm_num

/-- Every successful CDV lookup on `wCalc5` returns a positive value. -/
theorem wCalc5_cdv_pos : ∀ (tdv : ℚ) (q : Nat) (cdv : ℚ), 0 < tdv →
    wCalc5.get_cdv tdv q = .ok cdv → 0 < cdv := by
  intro tdv q cdv htdv h
  unfold PCICalculator.get_cdv wCalc5 at h
  simp only [List.map_cons, List.map_nil, List.foldl_nil] at h
  rw [show (1 : Nat) ⊔ q ⊓ 1 = 1 by omega] at h
  norm_num [List.lookup] at h
  unfold CDVCurve.get_cdv at h
  obtain ⟨y, hy, rfl⟩ := except_map_ok h
  exact clamp100_pos (w_curve5_pos htdv hy)

/-- Witness for C1 at the concrete calculator `wCalc`, one observation of
50 sq ft of low-severity alligator cracking on a 100 sq ft sample. -/
theorem claim_C1_witness :
    wCalc.calculate_sample_pci wObs 100 = .ok wRes ∧
    calculate_deduct_values wCalc wObs 100 = .ok [50] ∧
    ([(50 : ℚ)] ≠ []) ∧
    (wRes.iteration_cdvs ≠ [] ∧
     wRes.pci = max 0 (min 100 (100 - pyMax wRes.iteration_cdvs)) ∧
     pyMax wRes.iteration_cdvs ∈ wRes.iteration_cdvs ∧
     ∀ x ∈ wRes.iteration_cdvs, x ≤ pyMax wRes.iteration_cdvs) :=
  ⟨w_pci, w_dvl, by simp,
   claim_C1 wCalc wObs 100 wRes [50] w_pci w_dvl (by simp)⟩

/-- Witness for C2 at the concrete working set [50]. -/
theorem claim_C2_witness :
    cdvLoop wCalc [50] = .ok [25] ∧
    ((∃ cdv,
       wCalc.get_cdv ([(50 : ℚ)]).sum
         (max 1 (([(50 : ℚ)]).countP (fun dv => decide (2 < dv)))) = .ok cdv ∧
       [(25 : ℚ)] = cdv :: ([(25 : ℚ)]).tail) ∧
     (([(50 : ℚ)]).countP (fun dv => decide (2 < dv)) ≤ 1 →
       ([(25 : ℚ)]).tail = []) ∧
     (2 ≤ ([(50 : ℚ)]).countP (fun dv => decide (2 < dv)) →
       (∃ i, ∃ hi : i < ([(50 : ℚ)]).length, 2 < ([(50 : ℚ)]).get ⟨i, hi⟩ ∧
         (∀ j, ∀ hj : j < ([(50 : ℚ)]).length, i < j →
           ([(50 : ℚ)]).get ⟨j, hj⟩ ≤ 2) ∧
         replaceLastGT2 [(50 : ℚ)] = ([(50 : ℚ)]).set i 2) ∧
       cdvLoop wCalc (replaceLastGT2 [(50 : ℚ)]) = .ok ([(25 : ℚ)]).tail)) :=
  ⟨w_loop, claim_C2 wCalc [50] [25] w_loop⟩

/-- Witness for C3 at the concrete calculator `wCalc`. -/
theorem claim_C3_witness :
    wCalc.calculate_sample_pci wObs 100 = .ok wRes ∧
    calculate_deduct_values wCalc wObs 100 = .ok [50] ∧
    ((sortDesc [50]).headD 0 ∈ [(50 : ℚ)] ∧
     (∀ v ∈ [(50 : ℚ)], v ≤ (sortDesc [50]).headD 0) ∧
     (sortDesc [50]).Sorted (fun a b => b ≤ a) ∧
     (sortDesc [50]).Perm [50] ∧
     wRes.deduct_values =
       (sortDesc [50]).take
         (PCICalculator.calculate_max_deduct_values ((sortDesc [50]).headD 0)) ∧
     cdvLoop wCalc wRes.deduct_values = .ok wRes.iteration_cdvs ∧
     PCICalculator.calculate_max_deduct_values ((sortDesc [50]).headD 0) =
       (max 1 ⌊1 + (9 / 98) * (100 - (sortDesc [50]).headD 0)⌋).toNat ∧
     wRes.deduct_values.length ≤
       (max 1 ⌊1 + (9 / 98) * (100 - (sortDesc [50]).headD 0)⌋).toNat) :=
  ⟨w_pci, w_dvl, claim_C3 wCalc wObs 100 wRes [50] w_pci w_dvl (by simp)⟩

/-- Witness for C4 at the calculator `wCalc5` (sound constant CDV curve)
and an empty observation list. -/
theorem claim_C4_witness :
    wCalc5.calculate_sample_pci [] 100 = .ok perfectResult ∧
    calculate_deduct_values wCalc5 [] 100 = .ok [] ∧
    (0 ≤ perfectResult.pci ∧ perfectResult.pci ≤ 100 ∧
     (perfectResult.pci = 100 ↔
       (([] : List DistressObservation) = [] ∨ ([] : List ℚ) = []))) :=
  ⟨by norm_num [PCICalculator.calculate_sample_pci], rfl,
   claim_C4 wCalc5 [] 100 perfectResult [] wCalc5_cdv_pos
     (by norm_num [PCICalculator.calculate_sample_pci]) rfl⟩

/-- Witness for C5 at the concrete calculator `wCalc`. -/
theorem claim_C5_witness :
    wCalc.calculate_sample_pci wObs 100 = .ok wRes ∧
    calculate_deduct_values wCalc wObs 100 = .ok [50] ∧
    (wRes.iteration_cdvs.length ≤
       wRes.deduct_values.countP (fun dv => decide (2 < dv)) + 1 ∧
     wRes.iteration_cdvs.length ≤
       PCICalculator.calculate_max_deduct_values ((sortDesc [50]).headD 0) ∧
     (∀ dvs : List ℚ, 0 < dvs.countP (fun dv => decide (2 < dv)) →
       (replaceLastGT2 dvs).countP (fun dv => decide (2 < dv)) =
         dvs.countP (fun dv => decide (2 < dv)) - 1)) :=
  ⟨w_pci, w_dvl, claim_C5 wCalc wObs 100 wRes [50] w_pci w_dvl (by simp)⟩

/-- Witness for C10 at the concrete calculator `wCalc`. -/
theorem claim_C10_witness :
    wCalc.calculate_sample_pci wObs 100 = .ok wRes ∧
    calculate_deduct_values wCalc wObs 100 = .ok [50] ∧
    (wRes.deduct_values = cappedDVs [50] ∧
     ∀ v ∈ wRes.deduct_values, v ∈ [(50 : ℚ)]) :=
  ⟨w_pci, w_dvl, claim_C10 wCalc wObs 100 wRes [50] w_pci w_dvl (by simp)⟩

/-- On a strictly ascending list, the number of entries `≤ x` is `k + 1`
whenever entry `k` is `≤ x` and every later entry is `> x`: this pins the
`bisect_right` insertion point. -/
theorem countP_le_of_sorted (xs : List ℚ) (x : ℚ)
    (hs : xs.Pairwise (fun a b => a < b)) :
    ∀ (k : Nat) (hk : k < xs.length), xs[k] ≤ x →
    (∀ (j : Nat) (hj : j < xs.length), k < j → x < xs[j]) →
    xs.countP (fun a => decide (a ≤ x)) = k + 1 := by
  induction xs with
  | nil => intro k hk; exact absurd hk (by simp)
  | cons a t ih =>
    intro k hk hkx hgt
    rcases List.pairwise_cons.mp hs with ⟨ha, ht⟩
    cases k with
    | zero =>
      have htz : t.countP (fun b => decide (b ≤ x)) = 0 := by
        rw [List.countP_eq_zero]
        intro b hb
        obtain ⟨i, hi, rfl⟩ := List.getElem_of_mem hb
        have := hgt (i + 1) (by simpa using Nat.succ_lt_succ hi)
          (Nat.succ_pos i)
        simp only [List.getElem_cons_succ] at this
        simpa using not_le.mpr this
      simp only [List.getElem_cons_zero] at hkx
      rw [List.countP_cons, htz]
      simp [hkx]
    | succ k =>
      have hk' : k < t.length := by simpa using Nat.lt_of_succ_lt_succ hk
      simp only [List.getElem_cons_succ] at hkx
      have hax : a ≤ x := by
        have hat : a < t[k] := ha _ (List.getElem_mem hk')
        exact le_of_lt (lt_of_lt_of_le hat hkx)
      have hrec := ih ht k hk' hkx
        (fun j hj hkj => by
          have := hgt (j + 1) (by simpa using Nat.succ_lt_succ hj)
            (Nat.succ_lt_succ hkj)
          simpa using this)
      rw [List.countP_cons, hrec]
      simp [hax]

/-- Strictly between (or at) the bracketing pair, `interpolate_curve`
returns the linear interpolation formula of the bracketing pair. -/
theorem interpolate_bracket (points : List (ℚ × ℚ)) (x : ℚ)
    (hs : (points.map Prod.fst).Pairwise (fun a b => a < b))
    (k : Nat) (hk : k < points.length) (hk1 : k + 1 < points.length)
    (hlo : (points[k]).1 ≤ x) (hhi : x < (points[k + 1]).1) :
    interpolate_curve points x =
      .ok ((points[k]).2 +
        (x - (points[k]).1) / ((points[k + 1]).1 - (points[k]).1) *
        ((points[k + 1]).2 - (points[k]).2)) := by
  match points, hk, hk1, hlo, hhi with
  | p :: ps, hk, hk1, hlo, hhi =>
  have hmono : ∀ (i j : Nat) (hi : i < (p :: ps).length)
      (hj : j < (p :: ps).length), i < j →
      ((p :: ps)[i]).1 < ((p :: ps)[j]).1 := by
    intro i j hi hj hij
    have := List.pairwise_iff_getElem.mp hs i j (by simpa using hi)
      (by simpa using hj) hij
    simpa only [List.getElem_map] using this
  simp only [interpolate_curve]
  by_cases hg1 : x ≤ p.1
  · have hk0 : k = 0 := by
      by_contra hkne
      have h0k : ((p :: ps)[0]).1 < ((p :: ps)[k]).1 :=
        hmono 0 k (by simp) hk (Nat.pos_of_ne_zero hkne)
      simp only [List.getElem_cons_zero] at h0k
      exact absurd (lt_of_lt_of_le (lt_of_le_of_lt hg1 h0k) hlo)
        (lt_irrefl x)
    subst hk0
    simp only [List.getElem_cons_zero] at hlo hhi ⊢
    have hxp : x = p.1 := le_antisymm hg1 hlo
    rw [if_pos hg1, hxp]
    norm_num
  · rw [if_neg hg1]
    have hlast1 : ((p :: ps).getLast (List.cons_ne_nil p ps)).1 =
        ((p :: ps).get ⟨(p :: ps).length - 1, by simp⟩).1 := by
      rw [List.getLast_eq_getElem]
      rfl
    have hxlt : x < ((p :: ps).get ⟨(p :: ps).length - 1, by simp⟩).1 := by
      rcases Nat.lt_or_ge (k + 1) ((p :: ps).length - 1) with hc | hc
      · exact lt_trans hhi (hmono (k + 1) _ hk1 (by simp) hc)
      · have hkeq : k + 1 = (p :: ps).length - 1 := by omega
        simp only [← hkeq]
        exact hhi
    rw [if_neg (by rw [hlast1]; exact not_le.mpr hxlt)]
    have hidx : ((p :: ps).map Prod.fst).countP (fun a => decide (a ≤ x)) =
        k + 1 := by
      apply countP_le_of_sorted _ x hs k (by simpa using hk)
      · rw [List.getElem_map]
        exact hlo
      · intro j hj hkj
        have hjlen : j < (p :: ps).length := by simpa using hj
        rcases Nat.eq_or_lt_of_le (Nat.succ_le_of_lt hkj) with hj1 | hj1
        · rw [List.getElem_map]
          simp only [← hj1]
          exact hhi
        · rw [List.getElem_map]
          exact lt_trans hhi (hmono (k + 1) j hk1 hjlen hj1)
    simp only [bisectRight, hidx, Nat.add_sub_cancel]
    rw [List.getElem?_eq_getElem hk, List.getElem?_eq_getElem hk1]
    have hne12 : ((p :: ps)[k + 1]).1 ≠ ((p :: ps)[k]).1 :=
      ne_of_gt (lt_of_le_of_lt hlo hhi)
    simp only [if_neg hne12]

/-- On a curve with strictly ascending x, the x coordinates are monotone in
the index. -/
theorem points_fst_mono (points : List (ℚ × ℚ))
    (hs : (points.map Prod.fst).Pairwise (fun a b => a < b))
    (i j : Nat) (hi : i < points.length) (hj : j < points.length)
    (hij : i < j) : (points[i]).1 < (points[j]).1 := by
  have := List.pairwise_iff_getElem.mp hs i j (by simpa using hi)
    (by simpa using hj) hij
  simpa only [List.getElem_map] using this

/-- Claim C6: on a non-empty x-ascending curve, `interpolate_curve` returns
the first y for any query at or below the first x, the last y for any query
at or above the last x, the knot y itself for a query equal to an interior
knot x, and the linear interpolation formula of the bracketing pair for a
query strictly between two adjacent knots. -/
theorem claim_C6 (points : List (ℚ × ℚ)) (x : ℚ) (hne : points ≠ [])
    (hs : (points.map Prod.fst).Pairwise (fun a b => a < b)) :
    (x ≤ (points.headD (0, 0)).1 →
      interpolate_curve points x = .ok (points.headD (0, 0)).2) ∧
    ((points.getLast hne).1 ≤ x →
      interpolate_curve points x = .ok (points.getLast hne).2) ∧
    (∀ (k : Nat) (hk : k < points.length), k + 1 < points.length → 0 < k →
      x = (points[k]).1 →
      interpolate_curve points x = .ok (points[k]).2) ∧
    (∀ (k : Nat) (hk : k < points.length) (hk1 : k + 1 < points.length),
      (points[k]).1 < x → x < (points[k + 1]).1 →
      interpolate_curve points x =
        .ok ((points[k]).2 +
          (x - (points[k]).1) / ((points[k + 1]).1 - (points[k]).1) *
          ((points[k + 1]).2 - (points[k]).2))) := by
  refine ⟨?_, ?_, ?_, ?_⟩
  · intro h1
    match points, h1 with
    | p :: ps, h1 =>
      simp only [List.headD_cons] at h1 ⊢
      simp only [interpolate_curve]
      rw [if_pos h1]
  · intro h2
    match points, hne, hs, h2 with
    | [p], hne, hs, h2 =>
      simp only [interpolate_curve]
      by_cases hg1 : x ≤ p.1
      · rw [if_pos hg1]
        simp [List.getLast]
      · rw [if_neg hg1, if_pos (by simpa [List.getLast] using h2)]
    | p :: q :: qs, hne, hs, h2 =>
      simp only [interpolate_curve]
      have h01 : ((p :: q :: qs)[0]).1 <
          ((p :: q :: qs).get ⟨(p :: q :: qs).length - 1, by simp⟩).1 :=
        points_fst_mono _ hs 0 _ (by simp) (by simp) (by simp)
      simp only [List.getElem_cons_zero] at h01
      have hlast : ((p :: q :: qs).getLast hne).1 =
          ((p :: q :: qs).get ⟨(p :: q :: qs).length - 1, by simp⟩).1 := by
        rw [List.getLast_eq_getElem]
        rfl
      rw [if_neg (by rw [hlast] at h2; exact not_le.mpr (lt_of_lt_of_le h01 h2)),
        if_pos h2]
  · intro k hk hk1 hk0 hxk
    have hhi : x < (points[k + 1]).1 := by
      rw [hxk]
      exact points_fst_mono points hs k (k + 1) hk hk1 (Nat.lt_succ_self k)
    rw [interpolate_bracket points x hs k hk hk1 (le_of_eq hxk.symm) hhi, hxk]
    norm_num
  · intro k hk hk1 hlo hhi
    exact interpolate_bracket points x hs k hk hk1 (le_of_lt hlo) hhi

/-- The concrete three-point curve used by the C6 witness. -/
def wPts : List (ℚ × ℚ) := [(0, 0), (10, 5), (20, 8)]

/-- Witness for C6 on the curve `wPts` at query x = 12, with both
hypotheses discharged concretely. -/
theorem claim_C6_witness :
    (wPts ≠ []) ∧
    ((12 : ℚ) ≤ (wPts.headD (0, 0)).1 →
      interpolate_curve wPts 12 = .ok (wPts.headD (0, 0)).2) ∧
    (((wPts.getLast (by simp [wPts])).1 ≤ 12) →
      interpolate_curve wPts 12 =
        .ok (wPts.getLast (by simp [wPts])).2) ∧
    (∀ (k : Nat) (hk : k < wPts.length), k + 1 < wPts.length → 0 < k →
      (12 : ℚ) = (wPts[k]).1 →
      interpolate_curve wPts 12 = .ok (wPts[k]).2) ∧
    (∀ (k : Nat) (hk : k < wPts.length) (hk1 : k + 1 < wPts.length),
      (wPts[k]).1 < 12 → (12 : ℚ) < (wPts[k + 1]).1 →
      interpolate_curve wPts 12 =
        .ok ((wPts[k]).2 +
          (12 - (wPts[k]).1) / ((wPts[k + 1]).1 - (wPts[k]).1) *
          ((wPts[k + 1]).2 - (wPts[k]).2))) :=
  ⟨by simp [wPts],
   claim_C6 wPts 12 (by simp [wPts])
     (by norm_num [wPts, List.pairwise_cons, -Prod.mk_zero_zero])⟩

/-! ## C7: CDV lookup clamping -/

/-- A calculator whose CDV table has buckets 1 and 3 but not 2. -/
def c7Calc : PCICalculator :=
  { deduct_curves := [],
    cdv_curves := [(1, [(0, 0), (10, 10)]), (3, [(0, 0), (10, 10)])] }

/-- Counterexample to C7 as stated: with buckets {1, 3}, the request q = 2
lies between 1 and the maximum bucket, yet `get_cdv` raises a lookup error
instead of clamping to a nearest available bucket. -/
theorem claim_C7_counterexample :
    c7Calc.get_cdv 5 2 = .error "No CDV curve for q=2" := rfl

/-- Claim C7 (amended): q is clamped into [1, largest registered bucket]
(so any q at or above the largest bucket uses the largest bucket when that
bucket has a curve); if no curve is registered under the clamped key — the
bucket set has a gap — the engine raises a lookup error rather than
substituting a default; when the clamped key has a curve, exactly that
curve is used. -/
theorem claim_C7 (c : PCICalculator) (tdv : ℚ) (q : Nat) (k : Nat)
    (ks : List Nat) (hkeys : c.cdv_curves.map Prod.fst = k :: ks) :
    (1 ≤ max 1 (min q (ks.foldl max k)) ∧
     max 1 (min q (ks.foldl max k)) ≤ max 1 (ks.foldl max k)) ∧
    (∀ points, ks.foldl max k ≤ q → 1 ≤ ks.foldl max k →
      c.cdv_curves.lookup (ks.foldl max k) = some points →
      c.get_cdv tdv q = CDVCurve.get_cdv points tdv) ∧
    (c.cdv_curves.lookup (max 1 (min q (ks.foldl max k))) = none →
      c.get_cdv tdv q =
        .error ("No CDV curve for q=" ++
          toString (max 1 (min q (ks.foldl max k))))) ∧
    (∀ points,
      c.cdv_curves.lookup (max 1 (min q (ks.foldl max k))) = some points →
      c.get_cdv tdv q = CDVCurve.get_cdv points tdv) := by
  refine ⟨⟨le_max_left 1 _, by omega⟩, ?_, ?_, ?_⟩
  · intro points hq h1 hlook
    have hcl : max 1 (min q (ks.foldl max k)) = ks.foldl max k := by omega
    unfold PCICalculator.get_cdv
    rw [hkeys]
    simp only [hcl, hlook]
  · intro hnone
    unfold PCICalculator.get_cdv
    rw [hkeys]
    simp only [hnone]
  · intro points hsome
    unfold PCICalculator.get_cdv
    rw [hkeys]
    simp only [hsome]

/-- Witness for the amended C7 at the concrete calculator `c7Calc`
(buckets 1 and 3) with q = 7 and tdv = 5. -/
theorem claim_C7_witness :
    c7Calc.cdv_curves.map Prod.fst = 1 :: [3] ∧
    ((1 ≤ max 1 (min 7 (([3] : List Nat).foldl max 1)) ∧
      max 1 (min 7 (([3] : List Nat).foldl max 1)) ≤
        max 1 (([3] : List Nat).foldl max 1)) ∧
     (∀ points, ([3] : List Nat).foldl max 1 ≤ 7 →
       1 ≤ ([3] : List Nat).foldl max 1 →
       c7Calc.cdv_curves.lookup (([3] : List Nat).foldl max 1) = some points →
       c7Calc.get_cdv 5 7 = CDVCurve.get_cdv points 5) ∧
     (c7Calc.cdv_curves.lookup (max 1 (min 7 (([3] : List Nat).foldl max 1))) =
        none →
       c7Calc.get_cdv 5 7 =
         .error ("No CDV curve for q=" ++
           toString (max 1 (min 7 (([3] : List Nat).foldl max 1))))) ∧
     (∀ points,
       c7Calc.cdv_curves.lookup
         (max 1 (min 7 (([3] : List Nat).foldl max 1))) = some points →
       c7Calc.get_cdv 5 7 = CDVCurve.get_cdv points 5)) :=
  ⟨rfl, claim_C7 c7Calc 5 7 1 [3] rfl⟩

/-! ## C8 and C9: section aggregation -/

/-- The accumulation loop computes the weighted sum of per-sample PCIs when
every sample computation succeeds. -/
theorem weighted_pci_sum_ok {c : PCICalculator} (f : SampleUnit → PCIResult) :
    ∀ us : List SampleUnit,
      (∀ su ∈ us, c.calculate_sample_pci su.observations su.area = .ok (f su)) →
      weighted_pci_sum c us =
        .ok ((us.map (fun su => (f su).pci * su.area)).sum) := by
  intro us
  induction us with
  | nil => intro _; simp [weighted_pci_sum]
  | cons u rest ih =>
    intro hf
    unfold weighted_pci_sum
    rw [hf u (List.mem_cons_self u rest),
      ih (fun su hsu => hf su (List.mem_cons_of_mem u hsu))]
    simp

/-- The accumulation loop raises the invalid-sample-area error as soon as
it reaches a unit whose area is not positive, provided all earlier units
succeed. -/
theorem weighted_pci_sum_err {c : PCICalculator} (f : SampleUnit → PCIResult)
    (z : SampleUnit) (hz : z.area ≤ 0) (zrest : List SampleUnit) :
    ∀ us : List SampleUnit,
      (∀ su ∈ us, c.calculate_sample_pci su.observations su.area = .ok (f su)) →
      weighted_pci_sum c (us ++ z :: zrest) =
        .error "Sample area must be positive" := by
  intro us
  induction us with
  | nil =>
    intro _
    show weighted_pci_sum c (z :: zrest) = _
    unfold weighted_pci_sum PCICalculator.calculate_sample_pci
    rw [if_pos hz]
  | cons u rest ih =>
    intro hf
    show weighted_pci_sum c (u :: (rest ++ z :: zrest)) = _
    unfold weighted_pci_sum
    rw [hf u (List.mem_cons_self u rest),
      ih (fun su hsu => hf su (List.mem_cons_of_mem u hsu))]

/-- Claim C8: section PCI is the area-weighted mean
`Σ (pci × area) / Σ area` of independently computed sample PCIs; an empty
section or a zero total area returns 100; two equal-area samples average to
`(p1 + p2) / 2`. -/
theorem claim_C8 (c : PCICalculator) (sec : PavementSection)
    (f : SampleUnit → PCIResult)
    (hf : ∀ su ∈ sec.sample_units,
      c.calculate_sample_pci su.observations su.area = .ok (f su)) :
    (sec.sample_units = [] → sec.calculate_section_pci c = .ok 100) ∧
    ((sec.sample_units.map SampleUnit.area).sum = 0 →
      sec.calculate_section_pci c = .ok 100) ∧
    (sec.sample_units ≠ [] →
      (sec.sample_units.map SampleUnit.area).sum ≠ 0 →
      sec.calculate_section_pci c =
        .ok ((sec.sample_units.map (fun su => (f su).pci * su.area)).sum /
          (sec.sample_units.map SampleUnit.area).sum)) ∧
    (∀ u1 u2 : SampleUnit, sec.sample_units = [u1, u2] →
      u1.area = u2.area → 0 < u1.area →
      sec.calculate_section_pci c = .ok (((f u1).pci + (f u2).pci) / 2)) := by
  refine ⟨?_, ?_, ?_, ?_⟩
  · intro hnil
    unfold PavementSection.calculate_section_pci
    rw [if_pos hnil]
  · intro htot
    unfold PavementSection.calculate_section_pci
    by_cases hnil : sec.sample_units = []
    · rw [if_pos hnil]
    · rw [if_neg hnil, if_pos htot]
  · intro hnil htot
    unfold PavementSection.calculate_section_pci
    rw [if_neg hnil, if_neg htot, weighted_pci_sum_ok f sec.sample_units hf]
  · intro u1 u2 hsec harea hpos
    unfold PavementSection.calculate_section_pci
    rw [hsec] at hf ⊢
    have htot : ((([u1, u2] : List SampleUnit).map SampleUnit.area)).sum ≠ 0 := by
      simp only [List.map_cons, List.map_nil, List.sum_cons, List.sum_nil]
      intro hzero
      rw [harea] at hzero hpos
      nlinarith
    rw [if_neg (by simp), if_neg htot, weighted_pci_sum_ok f [u1, u2] hf]
    simp only [List.map_cons, List.map_nil, List.sum_cons, List.sum_nil,
      add_zero, Except.ok.injEq]
    rw [harea]
    have h2 : u2.area ≠ 0 := by
      rw [harea] at hpos
      exact ne_of_gt hpos
    have hden : u2.area + u2.area ≠ 0 := by
      intro hc
      apply h2
      linarith
    rw [div_eq_div_iff hden (by norm_num : (2 : ℚ) ≠ 0)]
    ring

/-- Claim C9 (amended): a section containing a unit with non-positive area
anywhere among its units — after a prefix of successfully computed units
and with any units at all after it — and a non-zero total area raises the
invalid-sample-area error: the zero-area unit is not skipped and
contributes nothing because the whole aggregation aborts at it, never
reaching the later units. -/
theorem claim_C9 (c : PCICalculator) (sec : PavementSection)
    (us : List SampleUnit) (z : SampleUnit) (zrest : List SampleUnit)
    (f : SampleUnit → PCIResult)
    (hunits : sec.sample_units = us ++ z :: zrest) (hz : z.area ≤ 0)
    (hf : ∀ su ∈ us,
      c.calculate_sample_pci su.observations su.area = .ok (f su))
    (htot : (sec.sample_units.map SampleUnit.area).sum ≠ 0) :
    sec.calculate_section_pci c = .error "Sample area must be positive" := by
  unfold PavementSection.calculate_section_pci
  rw [hunits] at htot ⊢
  rw [if_neg (by simp), if_neg htot, weighted_pci_sum_err f z hz zrest us hf]

/-- A section with one positive-area unit and one zero-area unit. -/
def c9Sec : PavementSection :=
  { id := "S", sample_units :=
      [{ id := "u1", area := 4, observations := [] },
       { id := "u0", area := 0, observations := [] }] }

/-- Counterexample to C9 as stated: the section mixing a zero-area unit
with a positive-area unit does not succeed — `calculate_sample_pci` is
called on the zero-area unit and raises. -/
theorem claim_C9_counterexample :
    c9Sec.calculate_section_pci wCalc5 = .error "Sample area must be positive" := by
  norm_num [PavementSection.calculate_section_pci, c9Sec, weighted_pci_sum,
    PCICalculator.calculate_sample_pci]
  intro h
  exact absurd h (List.cons_ne_nil _ _)

/-- A section with two equal-area units and no observations. -/
def sec8 : PavementSection :=
  { id := "S8", sample_units :=
      [{ id := "a", area := 1, observations := [] },
       { id := "b", area := 1, observations := [] }] }

/-- Every unit of `sec8` computes to the perfect result on `wCalc5`. -/
theorem sec8_hf : ∀ su ∈ sec8.sample_units,
    wCalc5.calculate_sample_pci su.observations su.area = .ok perfectResult := by
  intro su hsu
  simp only [sec8] at hsu
  rcases List.mem_cons.mp hsu with rfl | hsu
  · norm_num [PCICalculator.calculate_sample_pci]
  · rcases List.mem_cons.mp hsu with rfl | hsu
    · norm_num [PCICalculator.calculate_sample_pci]
    · exact absurd hsu (List.not_mem_nil su)

/-- Witness for C8 at the two-unit equal-area section `sec8`. -/
theorem claim_C8_witness :
    (∀ su ∈ sec8.sample_units,
      wCalc5.calculate_sample_pci su.observations su.area =
        .ok ((fun _ => perfectResult) su)) ∧
    ((sec8.sample_units = [] → sec8.calculate_section_pci wCalc5 = .ok 100) ∧
     ((sec8.sample_units.map SampleUnit.area).sum = 0 →
       sec8.calculate_section_pci wCalc5 = .ok 100) ∧
     (sec8.sample_units ≠ [] →
       (sec8.sample_units.map SampleUnit.area).sum ≠ 0 →
       sec8.calculate_section_pci wCalc5 =
         .ok ((sec8.sample_units.map
            (fun su => ((fun _ => perfectResult) su).pci * su.area)).sum /
           (sec8.sample_units.map SampleUnit.area).sum)) ∧
     (∀ u1 u2 : SampleUnit, sec8.sample_units = [u1, u2] →
       u1.area = u2.area → 0 < u1.area →
       sec8.calculate_section_pci wCalc5 =
         .ok ((((fun _ => perfectResult) u1).pci +
           ((fun _ => perfectResult) u2).pci) / 2))) :=
  ⟨sec8_hf, claim_C8 wCalc5 sec8 (fun _ => perfectResult) sec8_hf⟩

/-- Every unit of the positive-area prefix of `c9Sec` computes to the
perfect result on `wCalc5`. -/
theorem c9_hf : ∀ su ∈ [({ id := "u1", area := 4, observations := [] } :
    SampleUnit)],
    wCalc5.calculate_sample_pci su.observations su.area =
      .ok ((fun _ => perfectResult) su) := by
  intro su hsu
  rcases List.mem_cons.mp hsu with rfl | hsu
  · norm_num [PCICalculator.calculate_sample_pci]
  · exact absurd hsu (List.not_mem_nil su)

/-- A section whose zero-area unit sits between two positive-area units. -/
def c9Sec3 : PavementSection :=
  { id := "S3", sample_units :=
      [{ id := "u1", area := 4, observations := [] },
       { id := "u0", area := 0, observations := [] },
       { id := "u2", area := 2, observations := [] }] }

/-- Witness for the amended C9 at the concrete section `c9Sec3`, whose
zero-area unit is followed by a further positive-area unit. -/
theorem claim_C9_witness :
    (c9Sec3.sample_units =
      [({ id := "u1", area := 4, observations := [] } : SampleUnit)] ++
      ({ id := "u0", area := 0, observations := [] } : SampleUnit) ::
      [({ id := "u2", area := 2, observations := [] } : SampleUnit)]) ∧
    (({ id := "u0", area := 0, observations := [] } : SampleUnit).area ≤ 0) ∧
    ((c9Sec3.sample_units.map SampleUnit.area).sum ≠ 0) ∧
    c9Sec3.calculate_section_pci wCalc5 = .error "Sample area must be positive" :=
  ⟨rfl, le_refl 0, by norm_num [c9Sec3],
   claim_C9 wCalc5 c9Sec3
     [{ id := "u1", area := 4, observations := [] }]
     { id := "u0", area := 0, observations := [] }
     [{ id := "u2", area := 2, observations := [] }]
     (fun _ => perfectResult) rfl (le_refl 0) c9_hf (by norm_num [c9Sec3])⟩
